import Mathlib

/-!
Verification development for the `email_finder` repository.

The Python source (`email_scraper.py`, `bot.py`, `config.py`) is shallowly
embedded below.  HTML documents are modelled as trees (the code parses HTML
with BeautifulSoup and only inspects the parse tree), Python `set`s are
modelled as insertion-ordered duplicate-free lists, network fetches are an
oracle (environment) passed explicitly, and the two external validator
functions (`validators.url`, `validators.email`) are abstract boolean
predicates passed as parameters, since their code is not part of the
repository.  Machine-level details (asyncio scheduling, throttling) are
abstracted: per-site crawls are deterministic functions of the oracle, so
batch aggregation is modelled by folding the per-site crawl over the input
list in order.
-/

namespace EmailFinder

/-! ### Python string primitives -/

/-- Substring test on character lists: does `needle` occur inside `hay`?
Models the Python `needle in hay` operator for strings. -/
def containsSub (hay needle : List Char) : Bool :=
  match hay with
  | [] => needle.isEmpty
  | _ :: t => needle.isPrefixOf hay || containsSub t needle

/-- Python `needle in hay` for strings. -/
def pyIn (needle hay : String) : Bool :=
  containsSub hay.data needle.data

/-- Python `s.startswith(pre)` (also `str.startswith` via `String`). -/
def pyStartsWith (s pre : String) : Bool :=
  pre.data.isPrefixOf s.data

/-- Python `s.endswith(suf)`. -/
def pyEndsWith (s suf : String) : Bool :=
  suf.data.reverse.isPrefixOf s.data.reverse

/-- Python `s.lower()` (ASCII, as the data this program handles). -/
def pyToLower (s : String) : String :=
  ⟨s.data.map Char.toLower⟩

/-- Drop characters satisfying `p` from both ends of a character list. -/
def stripBoth (p : Char → Bool) (s : List Char) : List Char :=
  ((s.dropWhile p).reverse.dropWhile p).reverse

/-- Python `str.strip()`: remove surrounding whitespace. -/
def pyStrip (s : String) : String :=
  ⟨stripBoth (fun c => c.isWhitespace) s.data⟩

/-- Python `str.strip('.')`. -/
def pyStripDot (s : String) : String :=
  ⟨stripBoth (fun c => c = '.') s.data⟩

/-- Python `str.strip('/')`. -/
def pyStripSlash (s : String) : String :=
  ⟨stripBoth (fun c => c = '/') s.data⟩

/-- Remove every (non-overlapping, leftmost-first) occurrence of `pat`:
Python `s.replace(pat, '')`.  The fuel argument (at least the length of the
text) makes the recursion structural; every step consumes at least one
character. -/
def removeAllAux (pat : List Char) : Nat → List Char → List Char
  | 0, s => s
  | _ + 1, [] => []
  | fuel + 1, c :: t =>
    if pat ≠ [] && pat.isPrefixOf (c :: t) then
      removeAllAux pat fuel ((c :: t).drop pat.length)
    else
      c :: removeAllAux pat fuel t

/-- Python `s.replace(pat, '')` on strings. -/
def removeAll (pat s : String) : String :=
  ⟨removeAllAux pat.data s.data.length s.data⟩

/-- Python `s.split(c)` on character lists (splits on every occurrence,
keeping empty pieces, like `str.split` with an explicit separator). -/
def splitCh (c : Char) : List Char → List (List Char)
  | [] => [[]]
  | a :: t =>
    if a = c then [] :: splitCh c t
    else
      match splitCh c t with
      | h :: r => (a :: h) :: r
      | [] => [[a]]

/-- Case-insensitive substring search (models `re.search` of an escaped
pattern compiled with `re.IGNORECASE`). -/
def containsCI (needle hay : String) : Bool :=
  containsSub (pyToLower hay).data (pyToLower needle).data

/-- Insert into a Python set modelled as an insertion-ordered list. -/
def insertSet (l : List String) (x : String) : List String :=
  if x ∈ l then l else l ++ [x]

/-- Build a Python set (insertion order, first occurrence kept) from a list. -/
def pySetList (l : List String) : List String :=
  l.foldl insertSet []

/-- Python `set.update(iterable)` starting from set `acc`. -/
def unionAddrs (acc new : List String) : List String :=
  new.foldl insertSet acc

/-! ### urllib.parse model

Models `urlparse` and `urljoin` from the standard library for the URL shapes
this program produces (absolute `http(s)` URLs, root-relative and relative
hrefs, other-scheme hrefs such as `mailto:`).  Dot-segment normalisation and
query/fragment components inside `urljoin` inputs are not modelled. -/

structure UrlParts where
  scheme : String
  netloc : String
  path : String
deriving Repr, DecidableEq

/-- Split at the first occurrence of `pat`, returning the pieces before and
after it. -/
def splitFirst (hay pat : List Char) : Option (List Char × List Char) :=
  match hay with
  | [] => if pat.isEmpty then some ([], []) else none
  | c :: t =>
    if pat.isPrefixOf (c :: t) then some ([], (c :: t).drop pat.length)
    else (splitFirst t pat).map (fun p => (c :: p.1, p.2))

/-- Model of `urllib.parse.urlparse` restricted to the components the
program reads (scheme, netloc, path). -/
def urlparse (u : String) : UrlParts :=
  match splitFirst u.data "://".data with
  | some (sch, rest) =>
    let netloc := rest.takeWhile (fun c => c ≠ '/' && c ≠ '?' && c ≠ '#')
    let after := rest.drop netloc.length
    let path := after.takeWhile (fun c => c ≠ '?' && c ≠ '#')
    { scheme := ⟨sch⟩, netloc := ⟨netloc⟩, path := ⟨path⟩ }
  | none =>
    { scheme := "", netloc := "",
      path := ⟨u.data.takeWhile (fun c => c ≠ '?' && c ≠ '#')⟩ }

/-- Does `href` start with a URI scheme (letter followed by letters, digits,
`+`, `-`, `.` and then a colon)? -/
def hasSchemeColon (href : String) : Bool :=
  match href.data with
  | [] => false
  | c :: _ =>
    c.isAlpha &&
      (let pre := href.data.takeWhile
        (fun d => d.isAlphanum || d = '+' || d = '-' || d = '.')
       (href.data.drop pre.length).head? = some ':')

/-- Directory part of a path: everything up to and including the last `/`
(or `/` itself when the path has none). -/
def dirOf (path : String) : String :=
  let rev := path.data.reverse
  let cut := rev.dropWhile (fun c => c ≠ '/')
  if cut.isEmpty then "/" else ⟨cut.reverse⟩

/-- Model of `urllib.parse.urljoin` for the href shapes the program meets. -/
def urljoin (base href : String) : String :=
  if pyStartsWith href "http://" || pyStartsWith href "https://" then href
  else if pyStartsWith href "//" then (urlparse base).scheme ++ ":" ++ href
  else
    let b := urlparse base
    let root := b.scheme ++ "://" ++ b.netloc
    if pyStartsWith href "/" then root ++ href
    else if hasSchemeColon href then href
    else root ++ dirOf b.path ++ href

/-! ### HTML documents

The code parses pages with BeautifulSoup and only traverses the resulting
tree, so pages are embedded directly as trees. -/

inductive Html where
  | elem (tag : String) (attrs : List (String × String)) (children : List Html)
  | tnode (s : String)

mutual

/-- All text-node strings of a document in document order
(BeautifulSoup `.strings`). -/
def collectTexts : Html → List String
  | .tnode s => [s]
  | .elem _ _ cs => collectTextsList cs

/-- Text-node strings of a forest, in order. -/
def collectTextsList : List Html → List String
  | [] => []
  | h :: t => collectTexts h ++ collectTextsList t

end

/-- BeautifulSoup `soup.get_text(separator=" ")`. -/
def getText (doc : Html) : String :=
  String.intercalate " " (collectTexts doc)

mutual

/-- The `href` attribute values of all `a` tags with an `href` attribute,
in document order (BeautifulSoup `soup.find_all('a', href=True)`). -/
def aHrefs : Html → List String
  | .tnode _ => []
  | .elem tag attrs cs =>
    (if tag = "a" then (attrs.lookup "href").toList else []) ++ aHrefsList cs

/-- `href` values of a forest, in order. -/
def aHrefsList : List Html → List String
  | [] => []
  | h :: t => aHrefs h ++ aHrefsList t

end

mutual

/-- All text nodes paired with their ancestor tag names, nearest ancestor
first, in document order.  Supports modelling
`soup.find(string=...)` followed by `element.find_parents([...])`. -/
def textNodesAnc (anc : List String) : Html → List (List String × String)
  | .tnode s => [(anc, s)]
  | .elem tag _ cs => textNodesAncList (tag :: anc) cs

/-- Text nodes with ancestors for a forest. -/
def textNodesAncList (anc : List String) : List Html → List (List String × String)
  | [] => []
  | h :: t => textNodesAnc anc h ++ textNodesAncList anc t

end

/-! ### The email regular expression

`re.compile(r'\b[A-Za-z0-9._%+-]+@[A-Za-z0-9.-]+\.[A-Z|a-z]{2,7}\b')` used
with `.findall` over the page text.  The matcher below reproduces the
backtracking behaviour of this one pattern: the three character-class runs
are taken greedily, then the dot position and top-level-domain length back
off one step at a time until the literal dot and the trailing word boundary
are satisfied.  Note that the class `[A-Z|a-z]` also contains the literal
bar character. -/

def isWordChar (c : Char) : Bool := c.isAlphanum || c = '_'

def isLocalChar (c : Char) : Bool :=
  c.isAlphanum || c = '.' || c = '_' || c = '%' || c = '+' || c = '-'

def isDomChar (c : Char) : Bool := c.isAlphanum || c = '.' || c = '-'

def isTldChar (c : Char) : Bool := c.isAlpha || c = '|'

/-- Word/non-word test for an optional character (out of range counts as
non-word, as in `re`'s \b). -/
def isWordOpt : Option Char → Bool
  | some c => isWordChar c
  | none => false

/-- Word boundary between two adjacent (optional) characters. -/
def wordBoundary (a b : Option Char) : Bool := isWordOpt a != isWordOpt b

/-- Try to match the email pattern at the current position.  `prev` is the
character before the position (for the leading \b).  Returns the length of
the match. -/
def matchEmailAt (prev : Option Char) (s : List Char) : Option Nat :=
  if !wordBoundary prev s.head? then none
  else
    let loc := s.takeWhile isLocalChar
    if loc.isEmpty then none
    else
      let afterLoc := s.drop loc.length
      if afterLoc.head? ≠ some '@' then none
      else
        let rest := afterLoc.drop 1
        let d := rest.takeWhile isDomChar
        -- dot position candidates, from the greedy end backwards
        let ms := ((List.range d.length).map (fun i => i + 1)).reverse
        let hit := ms.findSome? (fun m =>
          if (rest.drop m).head? ≠ some '.' then none
          else
            let t := rest.drop (m + 1)
            let run := t.takeWhile isTldChar
            let top := min 7 run.length
            let ls := ((List.range top).map (fun i => i + 1)).reverse
            ls.findSome? (fun l =>
              if l < 2 then none
              else if wordBoundary (t.get? (l - 1)) (t.get? l) then
                some (m + 1 + l)
              else none))
        hit.map (fun n => loc.length + 1 + n)

/-- `pattern.findall(text)`: scan left to right, emitting non-overlapping
matches.  `fuel` bounds the scan (call with the text length). -/
def findallAux (fuel : Nat) (prev : Option Char) (s : List Char) :
    List String :=
  match fuel with
  | 0 => []
  | fuel' + 1 =>
    match s with
    | [] => []
    | c :: t =>
      match matchEmailAt prev s with
      | some len =>
        ⟨s.take len⟩ ::
          findallAux fuel' (s.take len).getLast? (s.drop len)
      | none => findallAux fuel' (some c) t

/-- All email-shaped tokens of a text, in match order. -/
def findallEmails (text : String) : List String :=
  findallAux text.data.length none text.data

/-! ### Email extraction with context (`_get_emails_with_context`) -/

/-- One extracted candidate: address, context score and context tags
(the dict `{"address": ..., "score": ..., "context": ...}`). -/
structure EmailData where
  address : String
  score : Nat
  context : String
deriving Repr, DecidableEq

/-- Python `href.replace('mailto:', '').split('?')[0]`. -/
def mailtoAddr (href : String) : String :=
  ⟨(removeAll "mailto:" href).data.takeWhile (fun c => c ≠ '?')⟩

/-- Structural tags that give the +30 context bonus. -/
def bonusTags : List String := ["footer", "header", "address"]

/-- Context score and tag list for one address found on a page, as computed
by the body of the loop in `_get_emails_with_context`. -/
def contextFor (doc : Html) (mailtoSet : List String) (email : String) :
    Nat × List String :=
  let base : Nat × List String :=
    if email ∈ mailtoSet then (50, ["mailto"]) else (0, [])
  match (textNodesAnc [] doc).find? (fun p => containsCI email p.2) with
  | none => base
  | some (anc, _) =>
    match anc.find? (fun t => bonusTags.contains t) with
    | some tag => (base.1 + 30, base.2 ++ [tag])
    | none => base

/-- `_get_emails_with_context`: extract addresses from the page text and
from `mailto:` links, score each by its structural context.  A `none`
content (failed fetch) yields no candidates, mirroring the
`if not html_content` guard.  Python set iteration is modelled as
first-insertion order, text matches first. -/
def getEmailsWithContext (content : Option Html) (_baseUrl : String) :
    List EmailData :=
  match content with
  | none => []
  | some doc =>
    let textEmails := findallEmails (getText doc)
    let mailtoSet :=
      pySetList (((aHrefs doc).filter
        (fun h => pyStartsWith h "mailto:")).map mailtoAddr)
    let allFound := pySetList (textEmails ++ mailtoSet)
    allFound.map (fun email =>
      let c := contextFor doc mailtoSet email
      { address := email, score := c.1, context := String.intercalate ", " c.2 })

/-- `_get_emails_with_context_from_set`. -/
def fromSet (emails : List String) : List EmailData :=
  emails.map (fun e => { address := e, score := 0, context := "unknown" })

/-! ### Relevance ranking (`_prioritize_emails_by_relevance`) -/

/-- A candidate after ranking: the same dict with `is_domain_match` and
`total_score` added. -/
structure RankedEmail where
  address : String
  score : Nat
  context : String
  is_domain_match : Bool
  total_score : Nat
deriving Repr, DecidableEq

/-- The ordered corporate-prefix list. -/
def corporatePrefixes : List String :=
  ["info", "contact", "sales", "support", "admin", "hello", "mail",
   "marketing", "press", "jobs", "office", "reception", "billing"]

/-- First matching corporate prefix scores `len(list) - index`, else 0
(`prefix in email_prefix` is a substring test). -/
def prefixScoreOf (localPart : String) : Nat :=
  match corporatePrefixes.enum.find? (fun p => pyIn p.2 localPart) with
  | some (i, _) => corporatePrefixes.length - i
  | none => 0

/-- `urlparse(site_url).netloc.replace('www.', '').lower()`. -/
def siteDomainOf (siteUrl : String) : String :=
  pyToLower (removeAll "www." (urlparse siteUrl).netloc)

/-- `email_prefix, email_domain = email_lower.split('@') if '@' in
email_lower else ('', '')`.  Unpacking a split with more than two pieces
raises `ValueError`, which this models as an error value. -/
def splitEmail (address : String) : Except String (String × String) :=
  let low := pyToLower address
  if pyIn "@" low then
    match splitCh '@' low.data with
    | [a, b] => .ok (⟨a⟩, ⟨b⟩)
    | _ => .error "ValueError: too many values to unpack (expected 2)"
  else .ok ("", "")

/-- Annotate one candidate with domain match, prefix score and total score
(the body of the loop in `_prioritize_emails_by_relevance`). -/
def rankOne (siteDomain : String) (d : EmailData) :
    Except String RankedEmail :=
  match splitEmail d.address with
  | .error e => .error e
  | .ok pd =>
    let m := pyIn siteDomain pd.2
    .ok { address := d.address, score := d.score, context := d.context,
          is_domain_match := m,
          total_score :=
            (if m then 100 else 0) + d.score + prefixScoreOf pd.1 }

/-- Annotate every candidate in order; the first `ValueError` aborts the
loop, as in Python. -/
def rankAll (siteDomain : String) : List EmailData →
    Except String (List RankedEmail)
  | [] => .ok []
  | d :: t =>
    match rankOne siteDomain d with
    | .error e => .error e
    | .ok r =>
      match rankAll siteDomain t with
      | .error e => .error e
      | .ok rs => .ok (r :: rs)

/-- Stable insertion (descending by `total_score`): an earlier element is
placed before every later element of equal score, modelling Python's
stable `sorted(..., reverse=True)`. -/
def insertDesc (x : RankedEmail) : List RankedEmail → List RankedEmail
  | [] => [x]
  | y :: ys =>
    if y.total_score ≤ x.total_score then x :: y :: ys
    else y :: insertDesc x ys

/-- Stable sort, descending by `total_score`. -/
def sortByTotalDesc : List RankedEmail → List RankedEmail
  | [] => []
  | x :: xs => insertDesc x (sortByTotalDesc xs)

/-- `_prioritize_emails_by_relevance`. -/
def prioritizeEmails (l : List EmailData) (siteUrl : String) :
    Except String (List RankedEmail) :=
  if l.isEmpty then .ok []
  else
    match rankAll (siteDomainOf siteUrl) l with
    | .error e => .error e
    | .ok ranked => .ok (sortByTotalDesc ranked)

/-! ### Final filtering (`_filter_and_limit_emails`) -/

/-- `config.MAX_EMAILS_PER_DOMAIN` (default). -/
def maxEmailsPerDomain : Nat := 5

/-- Denied filename-extension substrings. -/
def denyExts : List String := [".jpg", ".png", ".gif", ".pdf", ".doc", ".zip"]

/-- Denied word substrings. -/
def denyWords : List String :=
  ["example", "test", "sample", "demo", "sentry.io", "wixpress.com"]

/-- `email_data['address'].lower().strip().strip('.')`. -/
def normEmail (e : String) : String := pyStripDot (pyStrip (pyToLower e))

/-- The filtering loop of `_filter_and_limit_emails`; `seen` is the set of
already accepted normalised addresses, `VE` models `validators.email`. -/
def filterEmailsAux (VE : String → Bool) (seen : List String) :
    List RankedEmail → List String
  | [] => []
  | d :: rest =>
    let low := normEmail d.address
    if low ∈ seen then filterEmailsAux VE seen rest
    else if denyExts.any (fun x => pyIn x low) then filterEmailsAux VE seen rest
    else if denyWords.any (fun w => pyIn w low) then filterEmailsAux VE seen rest
    else if VE low then d.address :: filterEmailsAux VE (low :: seen) rest
    else filterEmailsAux VE seen rest

/-- `_filter_and_limit_emails`: filter, deduplicate, truncate. -/
def filterAndLimitEmails (VE : String → Bool) (maxEmails : Nat)
    (l : List RankedEmail) : List String :=
  (filterEmailsAux VE [] l).take maxEmails

/-! ### Internal link collection (`_get_all_internal_links`) -/

/-- Extensions skipped when collecting links. -/
def ignoreExt : List String :=
  [".jpg", ".jpeg", ".png", ".gif", ".pdf", ".zip", ".rar", ".css", ".js",
   ".xml", ".svg", ".webp"]

/-- Keyword substrings skipped when collecting links. -/
def ignoreKeywords : List String :=
  ["login", "signin", "register", "cart", "checkout", "my-account", "tel:",
   "mailto:", "javascript:void(0)"]

/-- `full_url.split('#')[0]`. -/
def stripFragment (u : String) : String :=
  ⟨u.data.takeWhile (fun c => c ≠ '#')⟩

/-- The per-anchor body of `_get_all_internal_links`; `V` models
`validators.url`, `acc` the growing set of links. -/
def collectLinks (V : String → Bool) (base domainName : String) :
    List String → List String → List String
  | acc, [] => acc
  | acc, href :: rest =>
    if href = "" || ignoreKeywords.any (fun k => pyIn k (pyToLower href)) then
      collectLinks V base domainName acc rest
    else if ignoreExt.any (fun e => pyEndsWith (pyToLower href) e) then
      collectLinks V base domainName acc rest
    else
      if pyIn domainName (urlparse (urljoin base href)).netloc &&
          V (urljoin base href) then
        collectLinks V base domainName
          (insertSet acc (stripFragment (urljoin base href))) rest
      else
        collectLinks V base domainName acc rest

/-- `_get_all_internal_links`. -/
def getAllInternalLinks (V : String → Bool) (doc : Html) (baseUrl : String) :
    List String :=
  collectLinks V baseUrl (urlparse baseUrl).netloc [] (aHrefs doc)

/-! ### Contact-page priority (`_sort_contact_pages_by_priority`) -/

/-- Paths counted as exact contact pages. -/
def exactContactPaths : List String :=
  ["contatti", "contact", "contacts", "kontakt", "kontakty"]

/-- Keys for short contact-like paths. -/
def shortContactKeys : List String := ["contact", "kontakt"]

/-- `parsed.path.lower().strip('/')` for a link. -/
def contactPathOf (link : String) : String :=
  pyStripSlash (pyToLower (urlparse link).path)

/-- Stable insertion, ascending by `len(urlparse(x).path)` (an earlier
element goes before later elements of equal key), modelling Python's
stable `list.sort`. -/
def insertAscByPathLen (x : String) : List String → List String
  | [] => [x]
  | y :: ys =>
    if (urlparse x).path.length ≤ (urlparse y).path.length then x :: y :: ys
    else y :: insertAscByPathLen x ys

/-- Stable ascending sort by path length. -/
def sortByPathLen : List String → List String
  | [] => []
  | x :: xs => insertAscByPathLen x (sortByPathLen xs)

/-- `_sort_contact_pages_by_priority`: bucket into exact matches, short
paths and subpages, sort each by path length, concatenate. -/
def sortContactPages (contactLinks : List String) (baseUrl : String) :
    List String :=
  let baseDomain := (urlparse baseUrl).netloc
  let same := contactLinks.filter (fun l => (urlparse l).netloc = baseDomain)
  let isExact := fun l => exactContactPaths.contains (contactPathOf l)
  let isShort := fun l =>
    !pyIn "/" (contactPathOf l) &&
      shortContactKeys.any (fun k => pyIn k (contactPathOf l))
  let exact := same.filter (fun l => isExact l)
  let short := same.filter (fun l => !isExact l && isShort l)
  let subs := same.filter (fun l => !isExact l && !isShort l)
  sortByPathLen exact ++ sortByPathLen short ++ sortByPathLen subs

/-! ### URL normalisation (`_normalize_url`) -/

/-- The candidate URLs tried for a bare domain, in order. -/
def urlCandidates (u : String) : List String :=
  ["https://" ++ u, "https://www." ++ u, "http://" ++ u, "http://www." ++ u]

/-- `_normalize_url`; `V` models `validators.url` (purely syntactic, no
network access). -/
def normalizeUrl (V : String → Bool) (url : String) : Option String :=
  if url = "" then none
  else
    let u := pyStrip url
    if pyStartsWith u "http://" || pyStartsWith u "https://" then
      if V u then some u else none
    else if pyStartsWith u "www." && V ("https://" ++ u) then
      some ("https://" ++ u)
    else if pyIn "." u && !pyIn " " u && 2 ≤ (splitCh '.' u.data).length then
      (urlCandidates u).find? V
    else none

/-! ### Page fetching -/

/-- The rendering environment: for each URL either the parsed rendered
document with the post-redirect URL, or the raised exception's message
(navigation timeout, TLS failure, ...). -/
def RenderEnv : Type := String → Except String (Html × String)

/-- `_get_page_content_with_js`: every exception from the navigation
pipeline is caught and turned into `(None, url)`; on success the content
and the post-redirect URL are returned. -/
def getPageContentWithJs (env : RenderEnv) (url : String) :
    Option Html × String :=
  match env url with
  | .ok p => (some p.1, p.2)
  | .error _ => (none, url)

/-- `_scan_single_page_for_emails`: one rendered fetch, then contextual
extraction. -/
def scanSinglePageForEmails (env : RenderEnv) (url : String) :
    List EmailData :=
  getEmailsWithContext (getPageContentWithJs env url).1 url

/-! ### Per-site crawl (`_scrape_single_site`) -/

/-- Terminal classification of a site, mirroring the status strings of the
source. -/
inductive CrawlStatus where
  | inProgress
  | invalidUrl
  | unreachable (finalUrl : String)
  | successOnHomePage
  | success
  | contactNoEmail
  | noEmailFound
  | error (detail : String)
deriving Repr, DecidableEq

/-- The per-site result dict. -/
structure CrawlResult where
  emails : List String
  contactPage : String
  status : CrawlStatus
deriving Repr, DecidableEq

/-- One observable network fetch issued by the crawler. -/
inductive FetchEv where
  | rendered (url : String)
  | simple (url : String)
deriving Repr, DecidableEq

/-- Is this fetch a rendered (browser) fetch? -/
def FetchEv.isRendered : FetchEv → Bool
  | .rendered _ => true
  | .simple _ => false

/-- Is this status the converted-exception error status? -/
def CrawlStatus.isError : CrawlStatus → Bool
  | .error _ => true
  | _ => false

/-- Priority-1 path keywords (contact pages). -/
def p1Keys : List String :=
  ["contact", "kontakty", "contatti", "kontakt", "contacts"]

/-- Priority-2 path keywords (fallback pages). -/
def p2Keys : List String :=
  ["about", "team", "staff", "imprint", "legal", "feedback", "company"]

/-- Level-3 loop: scan each page with the rendered fetch, unioning the
addresses into the accumulated set; returns the new set and the fetches
issued. -/
def scanPages (env : RenderEnv) : List String → List String →
    List String × List FetchEv
  | [], acc => (acc, [])
  | p :: ps, acc =>
    let pageEmails := scanSinglePageForEmails env p
    let r := scanPages env ps
      (unionAddrs acc (pageEmails.map (fun d => d.address)))
    (r.1, .rendered p :: r.2)

/-- The final block of `_scrape_single_site` (re-rank the accumulated set,
filter and limit, choose the terminal status); a `ValueError` raised by the
ranking is converted by the surrounding `except` into an error result
keeping the accumulated fields. -/
def crawlFinish (VE : String → Bool) (maxEmails : Nat)
    (mainUrl contactPage : String) (emails3 : List String) : CrawlResult :=
  match prioritizeEmails (fromSet emails3) mainUrl with
  | .error e =>
    { emails := emails3, contactPage := contactPage, status := .error e }
  | .ok finalPrioritized =>
    let finalList := filterAndLimitEmails VE maxEmails finalPrioritized
    { emails := finalList, contactPage := contactPage,
      status :=
        if !finalList.isEmpty then .success
        else if contactPage ≠ "" then .contactNoEmail
        else .noEmailFound }

/-- Level 3 of `_scrape_single_site`: when no accumulated candidate matches
the site's domain, scan up to two priority-2 pages.  Returns the new
accumulated set and the extra fetches. -/
def crawlLevel3 (env : RenderEnv) (internalLinks : List String)
    (finalEmails : List RankedEmail) (emails2 : List String) :
    List String × List FetchEv :=
  if finalEmails.any (fun r => r.is_domain_match) then (emails2, [])
  else
    let otherLinks := internalLinks.filter (fun l =>
      p2Keys.any (fun k => pyIn k (pyToLower (urlparse l).path)))
    scanPages env (otherLinks.take 2) emails2

/-- Level 2 of `_scrape_single_site`: pick the best contact page if any and
scan it.  Returns the accumulated set, the contact page marker and the
extra fetches. -/
def crawlLevel2 (env : RenderEnv) (bestContactPage : Option String)
    (emails1 : List String) : List String × String × List FetchEv :=
  match bestContactPage with
  | some best =>
    let contactEmails := scanSinglePageForEmails env best
    (unionAddrs emails1 (contactEmails.map (fun d => d.address)), best,
      [FetchEv.rendered best])
  | none => (emails1, "", [])

/-- The part of `_scrape_single_site` following the level-2 scan: re-rank
the accumulated set (a `ValueError` here becomes an error result), run
level 3 if no candidate matches the domain, finalize. -/
def crawlAfterL2 (env : RenderEnv) (VE : String → Bool) (maxEmails : Nat)
    (mainUrl : String) (internalLinks : List String)
    (afterL2 : List String × String × List FetchEv) :
    CrawlResult × List FetchEv :=
  match prioritizeEmails (fromSet afterL2.1) mainUrl with
  | .error e =>
    ({ emails := afterL2.1, contactPage := afterL2.2.1, status := .error e },
      afterL2.2.2)
  | .ok finalEmails =>
    let l3 := crawlLevel3 env internalLinks finalEmails afterL2.1
    (crawlFinish VE maxEmails mainUrl afterL2.2.1 l3.1, afterL2.2.2 ++ l3.2)

/-- Levels 2, 3 and the final block of `_scrape_single_site`, entered when
the home page produced no early exit.  Returns the result and the fetches
issued after the home-page fetch. -/
def crawlRest (env : RenderEnv) (V VE : String → Bool) (maxEmails : Nat)
    (mainDoc : Html) (mainUrl : String) (emails1 : List String) :
    CrawlResult × List FetchEv :=
  let internalLinks := getAllInternalLinks V mainDoc mainUrl
  let p1Links := internalLinks.filter (fun l =>
    p1Keys.any (fun k => pyIn k (pyToLower (urlparse l).path)))
  let bestContactPage : Option String :=
    if p1Links.isEmpty then none
    else (sortContactPages p1Links mainUrl).head?
  crawlAfterL2 env VE maxEmails mainUrl internalLinks
    (crawlLevel2 env bestContactPage emails1)

/-- `_scrape_single_site`: the three-level strategy.  Returns the result
dict together with the trace of network fetches issued for the site.  The
`try`/`except` of the source is modelled by routing each possible
`ValueError` from the ranking step into an error result that keeps the
fields accumulated so far. -/
def scrapeSingleSite (env : RenderEnv) (V VE : String → Bool)
    (maxEmails : Nat) (url : String) : CrawlResult × List FetchEv :=
  match normalizeUrl V url with
  | none => ({ emails := [], contactPage := "", status := .invalidUrl }, [])
  | some normalized =>
    let fetched := getPageContentWithJs env normalized
    let mainUrl := fetched.2
    let trace0 := [FetchEv.rendered normalized]
    match fetched.1 with
    | none =>
      ({ emails := [], contactPage := "", status := .unreachable mainUrl },
        trace0)
    | some mainDoc =>
      let mainPageEmails := getEmailsWithContext (some mainDoc) mainUrl
      let emails1 := unionAddrs [] (mainPageEmails.map (fun d => d.address))
      match prioritizeEmails mainPageEmails mainUrl with
      | .error e =>
        ({ emails := emails1, contactPage := "", status := .error e }, trace0)
      | .ok prioritized =>
        let earlyHit : Bool :=
          match prioritized.head? with
          | some p0 => 100 ≤ p0.score
          | none => false
        if earlyHit then
          ({ emails := filterAndLimitEmails VE maxEmails prioritized,
             contactPage := "Главная страница",
             status := .successOnHomePage }, trace0)
        else
          let r := crawlRest env V VE maxEmails mainDoc mainUrl emails1
          (r.1, trace0 ++ r.2)

/-! ### Batch entry point (`scrape_emails_from_urls`) -/

/-- Insert-or-replace into the results dict modelled as an association
list. -/
def dictInsert (m : List (String × CrawlResult)) (k : String)
    (v : CrawlResult) : List (String × CrawlResult) :=
  if m.any (fun kv => kv.1 = k) then
    m.map (fun kv => if kv.1 = k then (k, v) else kv)
  else m ++ [(k, v)]

/-- `scrape_emails_from_urls`: one crawl task per input URL, results keyed
by the original URL string.  Tasks are independent and deterministic given
the environment, so the `as_completed` aggregation order is modelled as
input order (the key set and the per-key values do not depend on it). -/
def scrapeEmailsFromUrls (env : RenderEnv) (V VE : String → Bool)
    (maxEmails : Nat) (urls : List String) :
    List (String × CrawlResult) :=
  urls.foldl
    (fun m u => dictInsert m u (scrapeSingleSite env V VE maxEmails u).1) []

/-! ### Lightweight fetch (`_get_page_content_simple`)

Only the hybrid helper `_scan_contact_page_hybrid` uses the lightweight
HTTP fetch; the orchestrator `_scrape_single_site` never calls either.  The
fetch is modelled here so that the fetch-strategy claims can refer to it:
`simpleEnv url` is the response of the aiohttp GET (`none` for a transport
error or a non-2xx status). -/

/-- The lightweight HTTP environment. -/
def SimpleEnv : Type := String → Option (Html × String)

/-- `_get_page_content_simple`: the content and final URL on a 2xx
response, `(None, url)` otherwise. -/
def getPageContentSimple (senv : SimpleEnv) (url : String) :
    Option Html × String :=
  match senv url with
  | some p => (some p.1, p.2)
  | none => (none, url)

/-! ### Verification pass (`bot.py::_process_urls`, phase 2) -/

/-- Parameter names of `EmailScraper.scrape_emails_from_urls` as defined in
the source (`self, urls, progress_callback=None`). -/
def scrapeEntryParams : List String := ["self", "urls", "progress_callback"]

/-- Python keyword-argument binding: a keyword that is not a parameter name
raises `TypeError` at call time. -/
def bindKeywordArgs (params kwargs : List String) : Except String Unit :=
  match kwargs.find? (fun k => !params.contains k) with
  | some k =>
    .error ("TypeError: scrape_emails_from_urls() got an unexpected keyword argument " ++ k)
  | none => .ok ()

/-- The head-request environment of phase 2: the HTTP status of a HEAD
request against a contact page, `none` when the request raises. -/
def HeadEnv : Type := String → Option Nat

/-- Sites selected for verification: no emails but a contact page. -/
def urlsToVerify (results : List (String × CrawlResult)) :
    List (String × String) :=
  (results.filter (fun kv =>
    kv.2.emails.isEmpty && kv.2.contactPage ≠ "")).map
      (fun kv => (kv.1, kv.2.contactPage))

/-- Add a banned link for a site (`banned_links.setdefault(url,
set()).add(contact_page)`). -/
def addBan (banned : List (String × List String)) (url cp : String) :
    List (String × List String) :=
  if banned.any (fun kv => kv.1 = url) then
    banned.map (fun kv =>
      if kv.1 = url then (kv.1, insertSet kv.2 cp) else kv)
  else banned ++ [(url, [cp])]

/-- The 404-detection loop of phase 2: collect retry URLs and the per-site
banned-links map. -/
def phase2Retry (head : HeadEnv) (results : List (String × CrawlResult)) :
    List String × List (String × List String) :=
  (urlsToVerify results).foldl
    (fun acc p =>
      match head p.2 with
      | some 404 => (acc.1 ++ [p.1], addBan acc.2 p.1 p.2)
      | _ => acc)
    ([], [])

/-- `results.update(retry_results)`. -/
def dictUpdate (m newEntries : List (String × CrawlResult)) :
    List (String × CrawlResult) :=
  newEntries.foldl (fun acc kv => dictInsert acc kv.1 kv.2) m

/-- Phase 2 of `bot.py::_process_urls`: verify dead contact pages and
re-run the scraper for the affected sites.  The re-run is the call
`scrape_emails_from_urls(retry_urls, banned_links=banned_links)` at
`bot.py:181`; its keyword arguments are bound against the parameter list of
the function defined at `email_scraper.py:246`, so a binding failure is a
`TypeError` that propagates out of the phase (the surrounding generic
`except` then discards all results). -/
def processUrlsPhase2 (head : HeadEnv) (env : RenderEnv)
    (V VE : String → Bool) (maxEmails : Nat)
    (results : List (String × CrawlResult)) :
    Except String (List (String × CrawlResult)) :=
  let r := phase2Retry head results
  if r.1.isEmpty then .ok results
  else
    match bindKeywordArgs scrapeEntryParams ["banned_links"] with
    | .error e => .error e
    | .ok _ =>
      .ok (dictUpdate results (scrapeEmailsFromUrls env V VE maxEmails r.1))

/-! ### Concrete fixtures

Stand-ins for the two external validators (realistic on every concrete
string they are applied to below) and small concrete environments used to
evaluate the embedded program. -/

/-- Syntactic URL validator stand-in. -/
def V0 : String → Bool := fun s =>
  pyStartsWith s "http://" || pyStartsWith s "https://"

/-- Email validator stand-in. -/
def VE0 : String → Bool := fun s => pyIn "@" s

/-- Home page with a domain-matching `mailto:` inside a footer, plus a
contact link. -/
def homeDocA : Html :=
  .elem "html" [] [
    .elem "body" [] [
      .elem "footer" [] [
        .elem "a" [("href", "mailto:info@acme.com")] [.tnode "info@acme.com"]],
      .elem "a" [("href", "/contact")] [.tnode "Contact us"]]]

/-- Environment serving `homeDocA` and an empty contact page. -/
def envA : RenderEnv := fun u =>
  if u = "https://acme.com" then .ok (homeDocA, "https://acme.com")
  else if u = "https://acme.com/contact" then
    .ok (.elem "html" [] [.tnode "nothing here"], "https://acme.com/contact")
  else .error "net::ERR_NAME_NOT_RESOLVED"

/-- Home page with five same-domain links (none contact-like) and a
domain-matching plain-text address. -/
def homeDocB : Html :=
  .elem "body" [] [
    .tnode "write to info@acme.it",
    .elem "a" [("href", "/page1")] [.tnode "1"],
    .elem "a" [("href", "/page2")] [.tnode "2"],
    .elem "a" [("href", "/page3")] [.tnode "3"],
    .elem "a" [("href", "/page4")] [.tnode "4"],
    .elem "a" [("href", "/page5")] [.tnode "5"]]

/-- Environment serving `homeDocB`. -/
def envB : RenderEnv := fun u =>
  if u = "https://acme.it" then .ok (homeDocB, "https://acme.it")
  else .error "unreachable"

/-- Home page whose `mailto:` links include six orderly addresses, a
denylisted address and a comma-separated double address (the latter is what
`mailto` link syntax produces for multiple recipients). -/
def homeDocC : Html :=
  .elem "html" [] [
    .elem "a" [("href", "mailto:a1@acme.it")] [.tnode "m1"],
    .elem "a" [("href", "mailto:a2@acme.it")] [.tnode "m2"],
    .elem "a" [("href", "mailto:a3@acme.it")] [.tnode "m3"],
    .elem "a" [("href", "mailto:a4@acme.it")] [.tnode "m4"],
    .elem "a" [("href", "mailto:a5@acme.it")] [.tnode "m5"],
    .elem "a" [("href", "mailto:test@example.com")] [.tnode "m6"],
    .elem "a" [("href", "mailto:a@b.com,c@d.com")] [.tnode "m7"]]

/-- Environment serving `homeDocC`. -/
def envC : RenderEnv := fun u =>
  if u = "https://acme.it" then .ok (homeDocC, "https://acme.it")
  else .error "unreachable"

/-- Page with a subdomain link, a superstring-domain link and a
fragment-carrying relative link. -/
def docD : Html :=
  .elem "body" [] [
    .elem "a" [("href", "https://sub.acme.it/team")] [.tnode "team"],
    .elem "a" [("href", "https://notacme.it/x")] [.tnode "other"],
    .elem "a" [("href", "/about#staff")] [.tnode "about"]]

/-- Page with plain-text addresses: one denylisted, one domain-matching. -/
def docE : Html := .elem "body" [] [.tnode "test@example.com info@acme.it"]

/-- Environment serving `docE`. -/
def envE : RenderEnv := fun u =>
  if u = "https://acme.it" then .ok (docE, "https://acme.it")
  else .error "unreachable"

/-- A first-pass result map with one email-less site that has a contact
page. -/
def resultsF : List (String × CrawlResult) :=
  [("mysite.it",
    { emails := [], contactPage := "https://mysite.it/contact",
      status := .contactNoEmail })]

/-- HEAD oracle reporting 404 for that contact page. -/
def headF : HeadEnv := fun cp =>
  if cp = "https://mysite.it/contact" then some 404 else some 200

/-- Home page of the re-crawled site, still carrying an anchor to the dead
contact page. -/
def homeDocF : Html :=
  .elem "body" [] [
    .elem "a" [("href", "https://mysite.it/contact")] [.tnode "contact"]]

/-! ### Supporting lemmas -/

/-- Context scores are at most 50 + 30. -/
theorem contextFor_le (doc : Html) (ms : List String) (e : String) :
    (contextFor doc ms e).1 ≤ 80 := by
  unfold contextFor
  cases h : (textNodesAnc [] doc).find? (fun p => containsCI e p.2) with
  | none => dsimp only; split <;> simp
  | some p =>
    dsimp only
    cases p with
    | mk anc s =>
      dsimp only
      cases h2 : anc.find? (fun t => bonusTags.contains t) <;>
        dsimp only <;> split <;> simp

/-- Every extracted candidate has context score at most 80. -/
theorem getEmailsWithContext_score_le (content : Option Html) (b : String)
    (d : EmailData) (hd : d ∈ getEmailsWithContext content b) :
    d.score ≤ 80 := by
  cases content with
  | none => simp [getEmailsWithContext] at hd
  | some doc =>
    simp only [getEmailsWithContext, List.mem_map] at hd
    obtain ⟨e, -, rfl⟩ := hd
    exact contextFor_le doc _ e

/-- `rankOne` keeps the address and context score of its input. -/
theorem rankOne_preserves (sd : String) (d : EmailData) (r : RankedEmail)
    (h : rankOne sd d = .ok r) : r.address = d.address ∧ r.score = d.score := by
  unfold rankOne at h
  cases hs : splitEmail d.address with
  | error e => rw [hs] at h; exact absurd h (by simp)
  | ok pd =>
    rw [hs] at h
    simp only [Except.ok.injEq] at h
    subst h
    exact ⟨rfl, rfl⟩

/-- Membership in the output of `rankAll` comes from a member of the
input. -/
theorem rankAll_mem (sd : String) :
    ∀ (l : List EmailData) (rs : List RankedEmail),
      rankAll sd l = .ok rs → ∀ r ∈ rs, ∃ d ∈ l, rankOne sd d = .ok r := by
  intro l
  induction l with
  | nil =>
    intro rs h r hr
    simp only [rankAll, Except.ok.injEq] at h
    subst h
    simp at hr
  | cons d t ih =>
    intro rs h r hr
    simp only [rankAll] at h
    cases h1 : rankOne sd d with
    | error e => rw [h1] at h; exact absurd h (by simp)
    | ok r0 =>
      rw [h1] at h
      cases h2 : rankAll sd t with
      | error e => rw [h2] at h; exact absurd h (by simp)
      | ok rs0 =>
        rw [h2] at h
        simp only [Except.ok.injEq] at h
        subst h
        rcases List.mem_cons.mp hr with hr0 | hrt
        · exact ⟨d, List.mem_cons_self d t, hr0 ▸ h1⟩
        · obtain ⟨d', hd', hrk⟩ := ih rs0 h2 r hrt
          exact ⟨d', List.mem_cons_of_mem d hd', hrk⟩

/-- `rankAll` ranks the list pointwise, preserving order. -/
theorem rankAll_forall₂ (sd : String) :
    ∀ (l : List EmailData) (rs : List RankedEmail),
      rankAll sd l = .ok rs →
      List.Forall₂ (fun d r => rankOne sd d = .ok r) l rs := by
  intro l
  induction l with
  | nil =>
    intro rs h
    simp only [rankAll, Except.ok.injEq] at h
    subst h
    exact List.Forall₂.nil
  | cons d t ih =>
    intro rs h
    simp only [rankAll] at h
    cases h1 : rankOne sd d with
    | error e => rw [h1] at h; exact absurd h (by simp)
    | ok r0 =>
      rw [h1] at h
      cases h2 : rankAll sd t with
      | error e => rw [h2] at h; exact absurd h (by simp)
      | ok rs0 =>
        rw [h2] at h
        simp only [Except.ok.injEq] at h
        subst h
        exact List.Forall₂.cons h1 (ih rs0 h2)

/-- Membership in a stable insertion. -/
theorem mem_insertDesc (x z : RankedEmail) :
    ∀ l : List RankedEmail, z ∈ insertDesc x l ↔ z = x ∨ z ∈ l := by
  intro l
  induction l with
  | nil => simp [insertDesc]
  | cons y ys ih =>
    simp only [insertDesc]
    split
    · simp
    · simp only [List.mem_cons, ih]
      tauto

/-- `insertDesc` permutes the cons. -/
theorem insertDesc_perm (x : RankedEmail) :
    ∀ l : List RankedEmail, (insertDesc x l).Perm (x :: l) := by
  intro l
  induction l with
  | nil => simp [insertDesc]
  | cons y ys ih =>
    simp only [insertDesc]
    split
    · exact List.Perm.refl _
    · exact (List.Perm.cons y ih).trans (List.Perm.swap x y ys)

/-- The stable sort permutes its input. -/
theorem sortByTotalDesc_perm :
    ∀ l : List RankedEmail, (sortByTotalDesc l).Perm l := by
  intro l
  induction l with
  | nil => exact List.Perm.refl _
  | cons x xs ih =>
    exact (insertDesc_perm x (sortByTotalDesc xs)).trans (List.Perm.cons x ih)

/-- Stable insertion preserves descending sortedness. -/
theorem insertDesc_pairwise (x : RankedEmail) :
    ∀ l : List RankedEmail,
      l.Pairwise (fun a b => b.total_score ≤ a.total_score) →
      (insertDesc x l).Pairwise (fun a b => b.total_score ≤ a.total_score) := by
  intro l
  induction l with
  | nil => intro _; simp [insertDesc]
  | cons y ys ih =>
    intro hp
    rcases List.pairwise_cons.mp hp with ⟨hy, hys⟩
    simp only [insertDesc]
    split
    · rename_i hle
      refine List.pairwise_cons.mpr ⟨?_, hp⟩
      intro z hz
      rcases List.mem_cons.mp hz with rfl | hzys
      · exact hle
      · exact le_trans (hy z hzys) hle
    · rename_i hgt
      refine List.pairwise_cons.mpr ⟨?_, ih hys⟩
      intro z hz
      rcases (mem_insertDesc x z ys).mp hz with rfl | hzys
      · omega
      · exact hy z hzys

/-- The output of the stable sort is descending in `total_score`. -/
theorem sortByTotalDesc_sorted :
    ∀ l : List RankedEmail,
      (sortByTotalDesc l).Pairwise (fun a b => b.total_score ≤ a.total_score) := by
  intro l
  induction l with
  | nil => simp [sortByTotalDesc]
  | cons x xs ih => exact insertDesc_pairwise x (sortByTotalDesc xs) ih

/-- Inserting below a strictly larger head commutes with score-slice
filtering: the slice of any fixed score is unchanged as a sequence. -/
theorem insertDesc_filter (x : RankedEmail) (k : Nat) :
    ∀ l : List RankedEmail,
      (insertDesc x l).filter (fun r => r.total_score == k) =
        if x.total_score == k then
          x :: l.filter (fun r => r.total_score == k)
        else l.filter (fun r => r.total_score == k) := by
  intro l
  induction l with
  | nil =>
    by_cases hx : x.total_score = k <;>
      simp [insertDesc, List.filter_cons, hx]
  | cons y ys ih =>
    simp only [insertDesc]
    split
    · rename_i hle
      by_cases hx : x.total_score = k <;> simp [List.filter_cons, hx]
    · rename_i hgt
      have hlt : x.total_score < y.total_score := by omega
      by_cases hx : x.total_score = k
      · have hy : ¬(y.total_score = k) := by omega
        simp [List.filter_cons, hx, hy, ih]
      · by_cases hy : y.total_score = k <;>
          simp [List.filter_cons, hx, hy, ih]

/-- Stability: for every score value, the candidates carrying that score
appear in the sorted output in exactly their input order. -/
theorem sortByTotalDesc_stable (k : Nat) :
    ∀ l : List RankedEmail,
      (sortByTotalDesc l).filter (fun r => r.total_score == k) =
        l.filter (fun r => r.total_score == k) := by
  intro l
  induction l with
  | nil => rfl
  | cons x xs ih =>
    simp only [sortByTotalDesc, insertDesc_filter, List.filter_cons]
    by_cases hx : x.total_score = k <;> simp [hx, ih]

/-- Everything the filtering loop emits has survived the denylist and the
validator (checked on the normalised lowercase form). -/
theorem filterEmailsAux_mem (VE : String → Bool) :
    ∀ (l : List RankedEmail) (seen : List String) (e : String),
      e ∈ filterEmailsAux VE seen l →
      (denyExts.all (fun x => !pyIn x (normEmail e))) = true ∧
      (denyWords.all (fun w => !pyIn w (normEmail e))) = true ∧
      VE (normEmail e) = true := by
  intro l
  induction l with
  | nil => intro seen e he; simp [filterEmailsAux] at he
  | cons d rest ih =>
    intro seen e he
    simp only [filterEmailsAux] at he
    split at he
    · exact ih _ e he
    · split at he
      · exact ih _ e he
      · split at he
        · exact ih _ e he
        · split at he
          · rcases List.mem_cons.mp he with rfl | ht
            · rename_i hseen hext hword hval
              refine ⟨?_, ?_, hval⟩
              · simp only [List.all_eq_true]
                intro x hx
                by_contra hc
                simp at hc
                exact hext (List.any_eq_true.mpr ⟨x, hx, hc⟩)
              · simp only [List.all_eq_true]
                intro w hw
                by_contra hc
                simp at hc
                exact hword (List.any_eq_true.mpr ⟨w, hw, hc⟩)
            · exact ih _ e ht
          · exact ih _ e he

/-- The final email list never exceeds the configured maximum. -/
theorem filterAndLimitEmails_length (VE : String → Bool) (m : Nat)
    (l : List RankedEmail) : (filterAndLimitEmails VE m l).length ≤ m := by
  unfold filterAndLimitEmails
  exact (List.length_take _ _).trans_le (Nat.min_le_left _ _)

/-- Members of the limited list pass the same checks. -/
theorem filterAndLimitEmails_mem (VE : String → Bool) (m : Nat)
    (l : List RankedEmail) (e : String)
    (he : e ∈ filterAndLimitEmails VE m l) :
    (denyExts.all (fun x => !pyIn x (normEmail e))) = true ∧
    (denyWords.all (fun w => !pyIn w (normEmail e))) = true ∧
    VE (normEmail e) = true :=
  filterEmailsAux_mem VE l [] e (List.take_subset _ _ he)

/-- Every fetch of the level-3 loop is a rendered fetch. -/
theorem scanPages_trace_rendered (env : RenderEnv) :
    ∀ (ps acc : List String) (ev : FetchEv),
      ev ∈ (scanPages env ps acc).2 → ∃ p, ev = .rendered p := by
  intro ps
  induction ps with
  | nil => intro acc ev h; simp [scanPages] at h
  | cons p pst ih =>
    intro acc ev h
    simp only [scanPages, List.mem_cons] at h
    rcases h with rfl | h
    · exact ⟨p, rfl⟩
    · exact ih _ ev h

/-- Boolean key search agrees with membership in the key list. -/
theorem mem_keys_any (m : List (String × CrawlResult)) (k : String) :
    (m.any (fun kv => kv.1 = k) = true) ↔ k ∈ m.map Prod.fst := by
  simp [List.any_eq_true, List.mem_map]

/-- The keys of a dict insert: unchanged on replacement, extended by the
new key otherwise. -/
theorem dictInsert_keys (m : List (String × CrawlResult)) (k : String)
    (v : CrawlResult) :
    (dictInsert m k v).map Prod.fst =
      if m.any (fun kv => kv.1 = k) then m.map Prod.fst
      else m.map Prod.fst ++ [k] := by
  unfold dictInsert
  split
  · rename_i hk
    simp only [hk, if_true, List.map_map]
    apply List.map_congr_left
    intro kv _
    simp only [Function.comp]
    split
    · rename_i h1; simp [h1]
    · rfl
  · rename_i hk
    simp [List.map_append, hk]

/-- Key membership after a dict insert. -/
theorem dictInsert_mem_keys (m : List (String × CrawlResult)) (k u : String)
    (v : CrawlResult) :
    u ∈ (dictInsert m k v).map Prod.fst ↔ u ∈ m.map Prod.fst ∨ u = k := by
  rw [dictInsert_keys]
  split
  · rename_i hk
    rw [mem_keys_any] at hk
    constructor
    · exact Or.inl
    · rintro (h | rfl)
      · exact h
      · exact hk
  · simp [List.mem_append]

/-- Dict inserts keep keys duplicate-free. -/
theorem dictInsert_keys_nodup (m : List (String × CrawlResult)) (k : String)
    (v : CrawlResult) (h : (m.map Prod.fst).Nodup) :
    ((dictInsert m k v).map Prod.fst).Nodup := by
  rw [dictInsert_keys]
  split
  · exact h
  · rename_i hk
    refine List.Nodup.append h (List.nodup_singleton k) ?_
    intro a ha hb
    rcases List.mem_singleton.mp hb with rfl
    exact hk ((mem_keys_any m a).mpr ha)

/-- Values stored by a dict insert keep the invariant that each entry is
the crawl of its own key. -/
theorem dictInsert_values (m : List (String × CrawlResult)) (k : String)
    (v : CrawlResult)
    (f : String → CrawlResult)
    (hm : ∀ kv ∈ m, kv.2 = f kv.1) (hv : v = f k) :
    ∀ kv ∈ dictInsert m k v, kv.2 = f kv.1 := by
  intro kv hkv
  unfold dictInsert at hkv
  split at hkv
  · rw [List.mem_map] at hkv
    obtain ⟨kv0, hkv0, hmap⟩ := hkv
    by_cases h0 : kv0.1 = k
    · rw [if_pos h0] at hmap
      subst hmap
      exact hv
    · rw [if_neg h0] at hmap
      subst hmap
      exact hm kv0 hkv0
  · rcases List.mem_append.mp hkv with h | h
    · exact hm kv h
    · rcases List.mem_singleton.mp h with rfl
      exact hv

/-- Ranked candidates come from input candidates. -/
theorem prioritizeEmails_mem (l : List EmailData) (u : String)
    (out : List RankedEmail) (h : prioritizeEmails l u = .ok out)
    (r : RankedEmail) (hr : r ∈ out) :
    ∃ d ∈ l, rankOne (siteDomainOf u) d = .ok r := by
  unfold prioritizeEmails at h
  split at h
  · simp only [Except.ok.injEq] at h
    subst h
    simp at hr
  · cases hra : rankAll (siteDomainOf u) l with
    | error e => rw [hra] at h; exact absurd h (by simp)
    | ok ranked =>
      rw [hra] at h
      simp only [Except.ok.injEq] at h
      subst h
      exact rankAll_mem (siteDomainOf u) l ranked hra r
        ((sortByTotalDesc_perm ranked).mem_iff.mp hr)

/-- Case analysis for the final block: either an error result keeping the
accumulated set, or a filtered, limited result with one of the three
terminal statuses. -/
theorem crawlFinish_cases (VE : String → Bool) (m : Nat)
    (mainUrl cp : String) (e3 : List String) :
    (∃ e, crawlFinish VE m mainUrl cp e3 =
      { emails := e3, contactPage := cp, status := .error e }) ∨
    (∃ pr, (crawlFinish VE m mainUrl cp e3).emails =
        filterAndLimitEmails VE m pr ∧
      (crawlFinish VE m mainUrl cp e3).contactPage = cp ∧
      ((crawlFinish VE m mainUrl cp e3).status = .success ∨
       (crawlFinish VE m mainUrl cp e3).status = .contactNoEmail ∨
       (crawlFinish VE m mainUrl cp e3).status = .noEmailFound)) := by
  unfold crawlFinish
  cases hpr : prioritizeEmails (fromSet e3) mainUrl with
  | error e => exact Or.inl ⟨e, rfl⟩
  | ok finalPrioritized =>
    right
    refine ⟨finalPrioritized, rfl, rfl, ?_⟩
    dsimp only
    split
    · exact Or.inl rfl
    · split
      · exact Or.inr (Or.inl rfl)
      · exact Or.inr (Or.inr rfl)

/-- Case analysis after level 2: either an error status, or a filtered,
limited email list with a terminal non-error status. -/
theorem crawlAfterL2_cases (env : RenderEnv) (VE : String → Bool) (m : Nat)
    (mainUrl : String) (links : List String)
    (a2 : List String × String × List FetchEv) :
    (∃ e, (crawlAfterL2 env VE m mainUrl links a2).1.status = .error e) ∨
    (∃ pr, (crawlAfterL2 env VE m mainUrl links a2).1.emails =
        filterAndLimitEmails VE m pr ∧
      ((crawlAfterL2 env VE m mainUrl links a2).1.status = .success ∨
       (crawlAfterL2 env VE m mainUrl links a2).1.status = .contactNoEmail ∨
       (crawlAfterL2 env VE m mainUrl links a2).1.status = .noEmailFound)) := by
  unfold crawlAfterL2
  cases hpr : prioritizeEmails (fromSet a2.1) mainUrl with
  | error e => exact Or.inl ⟨e, rfl⟩
  | ok finalEmails =>
    dsimp only
    rcases crawlFinish_cases VE m mainUrl a2.2.1
        (crawlLevel3 env links finalEmails a2.1).1 with
      ⟨e, hfin⟩ | ⟨pr, hpe, _, hps⟩
    · exact Or.inl ⟨e, by rw [hfin]⟩
    · exact Or.inr ⟨pr, hpe, hps⟩

/-- Case analysis for levels 2–3: either an error status, or a filtered,
limited email list with a terminal non-error status. -/
theorem crawlRest_cases (env : RenderEnv) (V VE : String → Bool) (m : Nat)
    (mainDoc : Html) (mainUrl : String) (emails1 : List String) :
    (∃ e, (crawlRest env V VE m mainDoc mainUrl emails1).1.status =
      .error e) ∨
    (∃ pr, (crawlRest env V VE m mainDoc mainUrl emails1).1.emails =
        filterAndLimitEmails VE m pr ∧
      ((crawlRest env V VE m mainDoc mainUrl emails1).1.status = .success ∨
       (crawlRest env V VE m mainDoc mainUrl emails1).1.status =
         .contactNoEmail ∨
       (crawlRest env V VE m mainDoc mainUrl emails1).1.status =
         .noEmailFound)) :=
  crawlAfterL2_cases env VE m mainUrl _ _

/-- Case analysis for the whole per-site crawl: every result is an
invalid-URL result, an unreachable result, an error result, or a filtered
result with a terminal status. -/
theorem scrapeSingleSite_cases (env : RenderEnv) (V VE : String → Bool)
    (m : Nat) (url : String) :
    ((scrapeSingleSite env V VE m url).1.status = .invalidUrl ∧
       (scrapeSingleSite env V VE m url).1.emails = []) ∨
    (∃ f, (scrapeSingleSite env V VE m url).1.status = .unreachable f ∧
       (scrapeSingleSite env V VE m url).1.emails = []) ∨
    (∃ e, (scrapeSingleSite env V VE m url).1.status = .error e) ∨
    (∃ pr, (scrapeSingleSite env V VE m url).1.emails =
        filterAndLimitEmails VE m pr ∧
      ((scrapeSingleSite env V VE m url).1.status = .successOnHomePage ∨
       (scrapeSingleSite env V VE m url).1.status = .success ∨
       (scrapeSingleSite env V VE m url).1.status = .contactNoEmail ∨
       (scrapeSingleSite env V VE m url).1.status = .noEmailFound)) := by
  cases hnorm : normalizeUrl V url with
  | none =>
    simp only [scrapeSingleSite, hnorm]
    refine Or.inl ⟨?_, ?_⟩ <;> trivial
  | some normalized =>
    cases hmain : (getPageContentWithJs env normalized).1 with
    | none =>
      simp only [scrapeSingleSite, hnorm, hmain]
      refine Or.inr (Or.inl ⟨(getPageContentWithJs env normalized).2, ?_, ?_⟩) <;>
        trivial
    | some mainDoc =>
      simp only [scrapeSingleSite, hnorm, hmain]
      cases hpr : prioritizeEmails
          (getEmailsWithContext (some mainDoc)
            (getPageContentWithJs env normalized).2)
          (getPageContentWithJs env normalized).2 with
      | error e =>
        simp only [hpr]
        refine Or.inr (Or.inr (Or.inl ⟨e, ?_⟩))
        trivial
      | ok prioritized =>
        simp only [hpr]
        cases hhit : (match prioritized.head? with
          | some p0 => decide (100 ≤ p0.score)
          | none => false) with
        | true =>
          simp only [hhit, if_true]
          refine Or.inr (Or.inr (Or.inr ⟨prioritized, ?_, Or.inl ?_⟩)) <;>
            trivial
        | false =>
          simp only [hhit, Bool.false_eq_true, if_false]
          rcases crawlRest_cases env V VE m mainDoc
              (getPageContentWithJs env normalized).2
              (unionAddrs [] (List.map (fun d => d.address)
                (getEmailsWithContext (some mainDoc)
                  (getPageContentWithJs env normalized).2))) with
            ⟨e, hre⟩ | ⟨pr, hpe, hps⟩
          · exact Or.inr (Or.inr (Or.inl ⟨e, hre⟩))
          · refine Or.inr (Or.inr (Or.inr ⟨pr, hpe, ?_⟩))
            rcases hps with h | h | h
            · exact Or.inr (Or.inl h)
            · exact Or.inr (Or.inr (Or.inl h))
            · exact Or.inr (Or.inr (Or.inr h))

/-- Level-2 fetches are rendered fetches. -/
theorem crawlLevel2_trace (env : RenderEnv) (bc : Option String)
    (e1 : List String) :
    ∀ ev ∈ (crawlLevel2 env bc e1).2.2, ∃ p, ev = .rendered p := by
  cases bc with
  | none => intro ev h; simp [crawlLevel2] at h
  | some best =>
    intro ev h
    simp only [crawlLevel2, List.mem_singleton] at h
    exact ⟨best, h⟩

/-- Level-3 fetches are rendered fetches. -/
theorem crawlLevel3_trace (env : RenderEnv) (links : List String)
    (fe : List RankedEmail) (e2 : List String) :
    ∀ ev ∈ (crawlLevel3 env links fe e2).2, ∃ p, ev = .rendered p := by
  unfold crawlLevel3
  split
  · intro ev h; simp at h
  · intro ev h
    exact scanPages_trace_rendered env _ _ ev h

/-- All fetches issued after level 2 are rendered fetches. -/
theorem crawlAfterL2_trace (env : RenderEnv) (VE : String → Bool) (m : Nat)
    (mainUrl : String) (links : List String)
    (a2 : List String × String × List FetchEv)
    (ha : ∀ ev ∈ a2.2.2, ∃ p, ev = .rendered p) :
    ∀ ev ∈ (crawlAfterL2 env VE m mainUrl links a2).2,
      ∃ p, ev = .rendered p := by
  unfold crawlAfterL2
  cases hpr : prioritizeEmails (fromSet a2.1) mainUrl with
  | error e => exact ha
  | ok fe =>
    dsimp only
    intro ev h
    rcases List.mem_append.mp h with h | h
    · exact ha ev h
    · exact crawlLevel3_trace env links fe a2.1 ev h

/-- All fetches of levels 2–3 are rendered fetches. -/
theorem crawlRest_trace (env : RenderEnv) (V VE : String → Bool) (m : Nat)
    (mainDoc : Html) (mainUrl : String) (e1 : List String) :
    ∀ ev ∈ (crawlRest env V VE m mainDoc mainUrl e1).2,
      ∃ p, ev = .rendered p :=
  crawlAfterL2_trace env VE m mainUrl _ _ (crawlLevel2_trace env _ e1)

/-- Every fetch a site crawl issues is a rendered fetch: the orchestrator
never performs a lightweight fetch. -/
theorem scrapeSingleSite_trace (env : RenderEnv) (V VE : String → Bool)
    (m : Nat) (url : String) :
    ∀ ev ∈ (scrapeSingleSite env V VE m url).2, ∃ p, ev = .rendered p := by
  cases hnorm : normalizeUrl V url with
  | none => intro ev h; simp [scrapeSingleSite, hnorm] at h
  | some normalized =>
    cases hmain : (getPageContentWithJs env normalized).1 with
    | none =>
      intro ev h
      simp only [scrapeSingleSite, hnorm, hmain] at h
      rcases List.mem_cons.mp h with h | h
      · exact ⟨normalized, h⟩
      · exact absurd h (List.not_mem_nil ev)
    | some mainDoc =>
      cases hpr : prioritizeEmails
          (getEmailsWithContext (some mainDoc)
            (getPageContentWithJs env normalized).2)
          (getPageContentWithJs env normalized).2 with
      | error e =>
        intro ev h
        simp only [scrapeSingleSite, hnorm, hmain, hpr] at h
        rcases List.mem_cons.mp h with h | h
        · exact ⟨normalized, h⟩
        · exact absurd h (List.not_mem_nil ev)
      | ok prioritized =>
        cases hhit : (match prioritized.head? with
          | some p0 => decide (100 ≤ p0.score)
          | none => false) with
        | true =>
          intro ev h
          simp only [scrapeSingleSite, hnorm, hmain, hpr, hhit, if_true] at h
          rcases List.mem_cons.mp h with h | h
          · exact ⟨normalized, h⟩
          · exact absurd h (List.not_mem_nil ev)
        | false =>
          intro ev h
          simp only [scrapeSingleSite, hnorm, hmain, hpr, hhit,
            Bool.false_eq_true, if_false] at h
          rcases List.mem_append.mp h with h | h
          · rcases List.mem_cons.mp h with h | h
            · exact ⟨normalized, h⟩
            · exact absurd h (List.not_mem_nil ev)
          · exact crawlRest_trace env V VE m mainDoc _ _ ev h

/-- The early-exit branch is dead code: the guard compares the context
score (at most 80) with 100, so no crawl ever reports success on the home
page. -/
theorem scrapeSingleSite_no_home_success (env : RenderEnv)
    (V VE : String → Bool) (m : Nat) (url : String) :
    ((scrapeSingleSite env V VE m url).1.status ==
      CrawlStatus.successOnHomePage) = false := by
  cases hnorm : normalizeUrl V url with
  | none => simp [scrapeSingleSite, hnorm]
  | some normalized =>
    cases hmain : (getPageContentWithJs env normalized).1 with
    | none => simp [scrapeSingleSite, hnorm, hmain]
    | some mainDoc =>
      cases hpr : prioritizeEmails
          (getEmailsWithContext (some mainDoc)
            (getPageContentWithJs env normalized).2)
          (getPageContentWithJs env normalized).2 with
      | error e => simp [scrapeSingleSite, hnorm, hmain, hpr]
      | ok prioritized =>
        cases hp0 : prioritized with
        | nil =>
          simp [scrapeSingleSite, hnorm, hmain, hpr, hp0]
          rcases crawlRest_cases env V VE m mainDoc
              (getPageContentWithJs env normalized).2
              (unionAddrs [] (List.map (fun d => d.address)
                (getEmailsWithContext (some mainDoc)
                  (getPageContentWithJs env normalized).2))) with
            ⟨e, h⟩ | ⟨pr, _, h | h | h⟩ <;> simp [h]
        | cons p0 rest =>
          have hscore : p0.score ≤ 80 := by
            obtain ⟨d, hd, hrk⟩ := prioritizeEmails_mem _ _ _ hpr p0
              (hp0 ▸ List.mem_cons_self p0 rest)
            have := (rankOne_preserves _ d p0 hrk).2
            rw [this]
            exact getEmailsWithContext_score_le _ _ d hd
          have hhit : (match prioritized.head? with
              | some q => decide (100 ≤ q.score)
              | none => false) = false := by
            rw [hp0]
            simp only [List.head?_cons]
            simp only [decide_eq_false_iff_not]
            omega
          simp only [scrapeSingleSite, hnorm, hmain, hpr, hhit,
            Bool.false_eq_true, if_false]
          rcases crawlRest_cases env V VE m mainDoc
              (getPageContentWithJs env normalized).2
              (unionAddrs [] (List.map (fun d => d.address)
                (getEmailsWithContext (some mainDoc)
                  (getPageContentWithJs env normalized).2))) with
            ⟨e, h⟩ | ⟨pr, _, h | h | h⟩ <;> simp [h]

/-- Key membership for the batch fold. -/
theorem batchFold_mem_keys (env : RenderEnv) (V VE : String → Bool)
    (m : Nat) :
    ∀ (urls : List String) (macc : List (String × CrawlResult))
      (u : String),
      u ∈ ((urls.foldl (fun mm w =>
          dictInsert mm w (scrapeSingleSite env V VE m w).1) macc).map
            Prod.fst) ↔
        u ∈ macc.map Prod.fst ∨ u ∈ urls := by
  intro urls
  induction urls with
  | nil => intro macc u; simp
  | cons v rest ih =>
    intro macc u
    simp only [List.foldl_cons]
    rw [ih, dictInsert_mem_keys]
    simp only [List.mem_cons]
    tauto

/-- The batch fold keeps keys duplicate-free. -/
theorem batchFold_nodup (env : RenderEnv) (V VE : String → Bool) (m : Nat) :
    ∀ (urls : List String) (macc : List (String × CrawlResult)),
      (macc.map Prod.fst).Nodup →
      ((urls.foldl (fun mm w =>
          dictInsert mm w (scrapeSingleSite env V VE m w).1) macc).map
            Prod.fst).Nodup := by
  intro urls
  induction urls with
  | nil => intro macc h; exact h
  | cons v rest ih =>
    intro macc h
    simp only [List.foldl_cons]
    exact ih _ (dictInsert_keys_nodup macc v _ h)

/-- Every batch-fold entry is the crawl of its own key. -/
theorem batchFold_values (env : RenderEnv) (V VE : String → Bool) (m : Nat) :
    ∀ (urls : List String) (macc : List (String × CrawlResult)),
      (∀ kv ∈ macc, kv.2 = (scrapeSingleSite env V VE m kv.1).1) →
      ∀ kv ∈ urls.foldl (fun mm w =>
          dictInsert mm w (scrapeSingleSite env V VE m w).1) macc,
        kv.2 = (scrapeSingleSite env V VE m kv.1).1 := by
  intro urls
  induction urls with
  | nil => intro macc h; exact h
  | cons v rest ih =>
    intro macc h
    simp only [List.foldl_cons]
    exact ih _ (dictInsert_values macc v (scrapeSingleSite env V VE m v).1
      (fun u => (scrapeSingleSite env V VE m u).1) h rfl)

/-- Entries of the batch result are per-site crawls of their keys. -/
theorem scrapeEmailsFromUrls_values (env : RenderEnv) (V VE : String → Bool)
    (m : Nat) (urls : List String) :
    ∀ kv ∈ scrapeEmailsFromUrls env V VE m urls,
      kv.2 = (scrapeSingleSite env V VE m kv.1).1 :=
  batchFold_values env V VE m urls [] (by intro kv h; simp at h)

/-- Every per-site result carries a terminal status, never the initial
"in progress" value. -/
theorem scrapeSingleSite_terminal (env : RenderEnv) (V VE : String → Bool)
    (m : Nat) (url : String) :
    ((scrapeSingleSite env V VE m url).1.status ==
      CrawlStatus.inProgress) = false := by
  rcases scrapeSingleSite_cases env V VE m url with
    ⟨h, -⟩ | ⟨f, h, -⟩ | ⟨e, h⟩ | ⟨pr, -, h | h | h | h⟩ <;> simp [h]

/-- Every non-error per-site result respects the configured email bound. -/
theorem scrapeSingleSite_bound (env : RenderEnv) (V VE : String → Bool)
    (m : Nat) (url : String)
    (h : (scrapeSingleSite env V VE m url).1.status.isError = false) :
    (scrapeSingleSite env V VE m url).1.emails.length ≤ m := by
  rcases scrapeSingleSite_cases env V VE m url with
    ⟨-, he⟩ | ⟨f, -, he⟩ | ⟨e, hs⟩ | ⟨pr, he, -⟩
  · simp [he]
  · simp [he]
  · rw [hs] at h
    simp [CrawlStatus.isError] at h
  · rw [he]
    exact filterAndLimitEmails_length VE m pr

/-- Every email of a non-error per-site result passed the denylist and the
validator. -/
theorem scrapeSingleSite_filtered (env : RenderEnv) (V VE : String → Bool)
    (m : Nat) (url : String)
    (h : (scrapeSingleSite env V VE m url).1.status.isError = false) :
    ∀ e ∈ (scrapeSingleSite env V VE m url).1.emails,
      denyExts.all (fun x => !pyIn x (normEmail e)) = true ∧
      denyWords.all (fun w => !pyIn w (normEmail e)) = true ∧
      VE (normEmail e) = true := by
  rcases scrapeSingleSite_cases env V VE m url with
    ⟨-, he⟩ | ⟨f, -, he⟩ | ⟨e', hs⟩ | ⟨pr, he, -⟩
  · intro e hmem; rw [he] at hmem; simp at hmem
  · intro e hmem; rw [he] at hmem; simp at hmem
  · rw [hs] at h
    simp [CrawlStatus.isError] at h
  · intro e hmem
    rw [he] at hmem
    exact filterAndLimitEmails_mem VE m pr e hmem

/-- `rankOne` computes the documented total score. -/
theorem rankOne_spec (sd : String) (d : EmailData) (r : RankedEmail)
    (h : rankOne sd d = .ok r) :
    ∃ pre dom, splitEmail r.address = .ok (pre, dom) ∧
      r.is_domain_match = pyIn sd dom ∧
      r.total_score =
        (if r.is_domain_match then 100 else 0) + r.score +
          prefixScoreOf pre := by
  unfold rankOne at h
  cases hs : splitEmail d.address with
  | error e => rw [hs] at h; exact absurd h (by simp)
  | ok pd =>
    rw [hs] at h
    simp only [Except.ok.injEq] at h
    subst h
    exact ⟨pd.1, pd.2, hs, rfl, rfl⟩

/-- Membership in a set insert. -/
theorem mem_insertSet (l : List String) (y x : String)
    (h : x ∈ insertSet l y) : x ∈ l ∨ x = y := by
  unfold insertSet at h
  split at h
  · exact Or.inl h
  · rcases List.mem_append.mp h with h | h
    · exact Or.inl h
    · exact Or.inr (List.mem_singleton.mp h)

/-- Every link collected by `_get_all_internal_links` arises from an anchor
that passed the keyword and extension exclusions, whose joined URL has the
page's own network location as a substring of its network location and
passed the URL validator; the collected link is the joined URL with its
fragment stripped. -/
theorem collectLinks_mem (V : String → Bool) (base dn : String) :
    ∀ (hrefs acc : List String) (l : String),
      l ∈ collectLinks V base dn acc hrefs →
      l ∈ acc ∨ ∃ href ∈ hrefs,
        (href = "" || ignoreKeywords.any
          (fun k => pyIn k (pyToLower href))) = false ∧
        (ignoreExt.any (fun e => pyEndsWith (pyToLower href) e)) = false ∧
        pyIn dn (urlparse (urljoin base href)).netloc = true ∧
        V (urljoin base href) = true ∧
        l = stripFragment (urljoin base href) := by
  intro hrefs
  induction hrefs with
  | nil => intro acc l h; exact Or.inl h
  | cons href rest ih =>
    intro acc l h
    unfold collectLinks at h
    split at h
    · rcases ih acc l h with h0 | ⟨h', hm, hprops⟩
      · exact Or.inl h0
      · exact Or.inr ⟨h', List.mem_cons_of_mem href hm, hprops⟩
    · split at h
      · rcases ih acc l h with h0 | ⟨h', hm, hprops⟩
        · exact Or.inl h0
        · exact Or.inr ⟨h', List.mem_cons_of_mem href hm, hprops⟩
      · split at h
        · rename_i hc1 hc2 hc3
          rw [Bool.and_eq_true] at hc3
          rcases ih _ l h with h0 | ⟨h', hm, hprops⟩
          · rcases mem_insertSet _ _ _ h0 with h1 | h1
            · exact Or.inl h1
            · exact Or.inr ⟨href, List.mem_cons_self href rest,
                Bool.eq_false_iff.mpr hc1, Bool.eq_false_iff.mpr hc2,
                hc3.1, hc3.2, h1⟩
          · exact Or.inr ⟨h', List.mem_cons_of_mem href hm, hprops⟩
        · rcases ih acc l h with h0 | ⟨h', hm, hprops⟩
          · exact Or.inl h0
          · exact Or.inr ⟨h', List.mem_cons_of_mem href hm, hprops⟩

/-- A substring hit for a one-character pattern means that character
occurs in the text. -/
theorem containsSub_singleton_mem :
    ∀ (hay : List Char) (c : Char), containsSub hay [c] = true → c ∈ hay := by
  intro hay
  induction hay with
  | nil => intro c h; simp [containsSub] at h
  | cons a t ih =>
    intro c h
    unfold containsSub at h
    rw [Bool.or_eq_true] at h
    rcases h with h | h
    · simp only [List.isPrefixOf, Bool.and_eq_true, beq_iff_eq] at h
      exact h.1 ▸ List.mem_cons_self a t
    · exact List.mem_cons_of_mem a (ih c h)

/-- The character split has one piece more than the separator count. -/
theorem splitCh_length (c : Char) :
    ∀ s : List Char, (splitCh c s).length = s.count c + 1 := by
  intro s
  induction s with
  | nil => simp [splitCh]
  | cons a t ih =>
    unfold splitCh
    by_cases hac : a = c
    · simp [hac, List.count_cons, ih]
    · cases hs : splitCh c t with
      | nil => rw [hs] at ih; simp at ih
      | cons hh r =>
        rw [hs] at ih
        simp only [List.length_cons] at ih
        simp [hac, hs, List.count_cons, ih]

/-! ### Claim theorems -/

/-- C1: the spec's early-exit scenario — a home page whose footer holds a
domain-matching `mailto:` link — yields a single candidate whose total
score is 193 (≥ 100, so the spec's early-exit condition holds) and whose
context score is 80; yet the crawl does not take the early exit: it
reports plain success with the contact page set and issues a second
(contact-page) fetch.  The last conjunct shows why: the guard at
`email_scraper.py:302` reads the context score (at most 80) instead of the
total score, so no crawl ever returns the home-page success status. -/
theorem C1_home_footer_mailto_no_early_exit :
    ((prioritizeEmails (getEmailsWithContext (some homeDocA)
        "https://acme.com") "https://acme.com").toOption.map
      (fun l => l.map (fun r => (r.total_score, r.score))) =
        some [(193, 80)]) ∧
    (scrapeSingleSite envA V0 VE0 5 "https://acme.com").1.status =
      CrawlStatus.success ∧
    (scrapeSingleSite envA V0 VE0 5 "https://acme.com").1.contactPage =
      "https://acme.com/contact" ∧
    (scrapeSingleSite envA V0 VE0 5 "https://acme.com").2 =
      [FetchEv.rendered "https://acme.com",
       FetchEv.rendered "https://acme.com/contact"] ∧
    (∀ (env : RenderEnv) (V VE : String → Bool) (m : Nat) (url : String),
      ((scrapeSingleSite env V VE m url).1.status ==
        CrawlStatus.successOnHomePage) = false) :=
  ⟨by decide, by decide, by decide, by decide,
   fun env V VE m url => scrapeSingleSite_no_home_success env V VE m url⟩

/-- C2 counterexample: a home page that yields five same-domain links (so
the claimed escalation policy would forbid any rendered fetch) is still
fetched with the rendered fetch, and that is the only fetch issued — no
lightweight fetch precedes it. -/
theorem C2_counterexample_rendered_unconditionally :
    (scrapeSingleSite envB V0 VE0 5 "acme.it").2 =
      [FetchEv.rendered "https://acme.it"] ∧
    (getAllInternalLinks V0 homeDocB "https://acme.it").length = 5 ∧
    ((scrapeSingleSite envB V0 VE0 5 "acme.it").2.all
      (fun ev => ev.isRendered)) = true :=
  ⟨by decide, by decide, by decide⟩

/-- C2 amended: every fetch the orchestrator issues — home page, contact
page or expanded pages — is a rendered (browser) fetch; the lightweight
fetch is never attempted by the orchestrator (it exists only in the unused
hybrid helper `_scan_contact_page_hybrid`). -/
theorem C2_amended_all_fetches_rendered (env : RenderEnv)
    (V VE : String → Bool) (m : Nat) (url : String) :
    ∀ ev ∈ (scrapeSingleSite env V VE m url).2, ev.isRendered = true := by
  intro ev h
  obtain ⟨p, rfl⟩ := scrapeSingleSite_trace env V VE m url ev h
  rfl

/-- Witness for the amended C2 at a concrete crawl. -/
theorem C2_amended_all_fetches_rendered_witness :
    FetchEv.rendered "https://acme.it" ∈
      (scrapeSingleSite envB V0 VE0 5 "acme.it").2 ∧
    (FetchEv.rendered "https://acme.it").isRendered = true :=
  ⟨by decide, C2_amended_all_fetches_rendered envB V0 VE0 5 "acme.it"
    (FetchEv.rendered "https://acme.it") (by decide)⟩

/-- C3: on a first-pass result with no emails and a contact page whose
existence check reports 404, phase 2 re-runs the batch entry point with
the keyword argument `banned_links` — but the entry point defined at
`email_scraper.py:246` has no such parameter, so the call raises
`TypeError` and the verification pass aborts instead of re-crawling.  The
last conjunct shows the link extractor has no banned-links mechanism: the
dead link is still collected from the home page's anchors. -/
theorem C3_banned_links_call_raises :
    bindKeywordArgs scrapeEntryParams ["banned_links"] =
      .error "TypeError: scrape_emails_from_urls() got an unexpected keyword argument banned_links" ∧
    processUrlsPhase2 headF envB V0 VE0 5 resultsF =
      .error "TypeError: scrape_emails_from_urls() got an unexpected keyword argument banned_links" ∧
    "https://mysite.it/contact" ∈
      getAllInternalLinks V0 homeDocF "https://mysite.it" :=
  ⟨rfl, rfl, by decide⟩

/-- C4: the batch entry point returns a mapping whose key set is exactly
the set of input URLs, with no duplicate keys, and every entry carries a
terminal status (never the initial in-progress value): individual failures
are converted to per-site results and cannot abort the batch. -/
theorem C4_one_result_per_input_url (env : RenderEnv)
    (V VE : String → Bool) (m : Nat) (urls : List String) :
    (∀ u, u ∈ (scrapeEmailsFromUrls env V VE m urls).map Prod.fst ↔
      u ∈ urls) ∧
    ((scrapeEmailsFromUrls env V VE m urls).map Prod.fst).Nodup ∧
    ∀ kv ∈ scrapeEmailsFromUrls env V VE m urls,
      (kv.2.status == CrawlStatus.inProgress) = false := by
  refine ⟨fun u => ?_, ?_, ?_⟩
  · have h := batchFold_mem_keys env V VE m urls [] u
    simpa [scrapeEmailsFromUrls] using h
  · exact batchFold_nodup env V VE m urls [] (by simp)
  · intro kv hkv
    rw [scrapeEmailsFromUrls_values env V VE m urls kv hkv]
    exact scrapeSingleSite_terminal env V VE m kv.1

/-- Witness for C4: a batch whose single site hits the internal
`ValueError` still returns exactly that site's key, carrying the converted
error status — a terminal result, not an aborted batch. -/
theorem C4_one_result_per_input_url_witness :
    ("acme.it" ∈ (scrapeEmailsFromUrls envC V0 VE0 5 ["acme.it"]).map
      Prod.fst) ∧
    ("acme.it", (scrapeSingleSite envC V0 VE0 5 "acme.it").1) ∈
      scrapeEmailsFromUrls envC V0 VE0 5 ["acme.it"] ∧
    (((scrapeSingleSite envC V0 VE0 5 "acme.it").1.status ==
      CrawlStatus.inProgress) = false) ∧
    (scrapeSingleSite envC V0 VE0 5 "acme.it").1.status.isError = true :=
  ⟨((C4_one_result_per_input_url envC V0 VE0 5 ["acme.it"]).1
      "acme.it").mpr (by decide),
   by decide,
   (C4_one_result_per_input_url envC V0 VE0 5 ["acme.it"]).2.2
     ("acme.it", (scrapeSingleSite envC V0 VE0 5 "acme.it").1) (by decide),
   by decide⟩

/-- C5 counterexample: with the configured maximum of 5, a home page with
seven `mailto:` addresses, one of which is a comma-separated double
address, makes the ranking step raise `ValueError`; the converted error
result returns the raw accumulated set of 7 addresses, exceeding the
bound. -/
theorem C5_counterexample_bound_exceeded_on_error :
    maxEmailsPerDomain = 5 ∧
    (scrapeEmailsFromUrls envC V0 VE0 maxEmailsPerDomain ["acme.it"]).any
      (fun kv => maxEmailsPerDomain < kv.2.emails.length) = true :=
  ⟨rfl, by decide⟩

/-- C5 amended: every batch result whose status is not the converted-error
status holds at most the configured maximum number of emails; the invalid,
unreachable and success paths all respect the bound, only the error path
returns the unfiltered accumulated set. -/
theorem C5_amended_bound_on_non_error (env : RenderEnv)
    (V VE : String → Bool) (m : Nat) (urls : List String) :
    ∀ kv ∈ scrapeEmailsFromUrls env V VE m urls,
      kv.2.status.isError = false → kv.2.emails.length ≤ m := by
  intro kv hkv herr
  rw [scrapeEmailsFromUrls_values env V VE m urls kv hkv] at herr ⊢
  exact scrapeSingleSite_bound env V VE m kv.1 herr

/-- Witness for the amended C5 at a concrete successful crawl. -/
theorem C5_amended_bound_on_non_error_witness :
    ("https://acme.com", (scrapeSingleSite envA V0 VE0 5
      "https://acme.com").1) ∈
      scrapeEmailsFromUrls envA V0 VE0 5 ["https://acme.com"] ∧
    (scrapeSingleSite envA V0 VE0 5 "https://acme.com").1.emails.length ≤
      5 :=
  ⟨by decide,
   C5_amended_bound_on_non_error envA V0 VE0 5 ["https://acme.com"]
     ("https://acme.com", (scrapeSingleSite envA V0 VE0 5
       "https://acme.com").1) (by decide) (by decide)⟩

/-- C6 counterexample: (a) a page carrying `test@example.com` next to a
legitimate address has the denylisted address present in the Relevance
Ranker's output — it is discarded only afterwards, in the final filter, so
"before ranking, never after" fails; (b) on the converted-error path the
unfiltered accumulated set escapes to the batch result, so the denylisted
address also appears in a final result. -/
theorem C6_counterexample_filter_after_ranking :
    ((prioritizeEmails (getEmailsWithContext (some docE) "https://acme.it")
      "https://acme.it").toOption.map (fun l => l.map (fun r => r.address)) =
        some ["info@acme.it", "test@example.com"]) ∧
    (scrapeSingleSite envE V0 VE0 5 "acme.it").1.emails = ["info@acme.it"] ∧
    (scrapeEmailsFromUrls envC V0 VE0 5 ["acme.it"]).any
      (fun kv => kv.2.emails.contains "test@example.com") = true :=
  ⟨by decide, by decide, by decide⟩

/-- C6 amended: in every batch result whose status is not the
converted-error status, each listed email's normalised form contains no
denylisted extension and no denylisted word and passes the email
validator; the denylist is enforced in the final filter, which runs after
ranking and before truncation. -/
theorem C6_amended_denylist_on_non_error (env : RenderEnv)
    (V VE : String → Bool) (m : Nat) (urls : List String) :
    ∀ kv ∈ scrapeEmailsFromUrls env V VE m urls,
      kv.2.status.isError = false →
      ∀ e ∈ kv.2.emails,
        denyExts.all (fun x => !pyIn x (normEmail e)) = true ∧
        denyWords.all (fun w => !pyIn w (normEmail e)) = true ∧
        VE (normEmail e) = true := by
  intro kv hkv herr
  rw [scrapeEmailsFromUrls_values env V VE m urls kv hkv] at herr ⊢
  exact scrapeSingleSite_filtered env V VE m kv.1 herr

/-- Witness for the amended C6 at a concrete crawl. -/
theorem C6_amended_denylist_on_non_error_witness :
    ("acme.it", (scrapeSingleSite envE V0 VE0 5 "acme.it").1) ∈
      scrapeEmailsFromUrls envE V0 VE0 5 ["acme.it"] ∧
    (denyExts.all (fun x => !pyIn x (normEmail "info@acme.it")) = true ∧
     denyWords.all (fun w => !pyIn w (normEmail "info@acme.it")) = true ∧
     VE0 (normEmail "info@acme.it") = true) :=
  ⟨by decide,
   C6_amended_denylist_on_non_error envE V0 VE0 5 ["acme.it"]
     ("acme.it", (scrapeSingleSite envE V0 VE0 5 "acme.it").1) (by decide)
     (by decide) "info@acme.it" (by decide)⟩

/-- C7: for a scheme-less input containing a dot and no space (given in
already-stripped form), the normaliser returns the first candidate of
`https://host, https://www.host, http://host, http://www.host` accepted by
the syntactic validator, with no fetch involved; an input that cannot be
normalised, such as `"not a url"`, yields `None`, the crawl reports the
invalid-URL status and issues zero fetches. -/
theorem C7_normalizer_spec :
    (∀ (V : String → Bool) (url : String),
      pyStrip url = url →
      pyStartsWith url "http://" = false →
      pyStartsWith url "https://" = false →
      pyIn "." url = true →
      pyIn " " url = false →
      normalizeUrl V url = (urlCandidates url).find? V) ∧
    (∀ V : String → Bool, normalizeUrl V "not a url" = none) ∧
    (∀ (env : RenderEnv) (V VE : String → Bool) (m : Nat),
      scrapeSingleSite env V VE m "not a url" =
        ({ emails := [], contactPage := "", status := .invalidUrl }, [])) := by
  refine ⟨?_, fun V => rfl, fun env V VE m => rfl⟩
  intro V url htrim hs1 hs2 hdot hspace
  have hne : url ≠ "" := by
    intro h
    rw [h] at hdot
    exact absurd hdot (by decide)
  have hlen : 2 ≤ (splitCh '.' url.data).length := by
    have hcount : 1 ≤ url.data.count '.' := by
      have : ('.' : Char) ∈ url.data := by
        have h1 := hdot
        unfold pyIn at h1
        exact containsSub_singleton_mem url.data '.' h1
      exact List.count_pos_iff.mpr this
    rw [splitCh_length] at *
    omega
  simp only [normalizeUrl, if_neg hne, htrim, hs1, hs2, Bool.or_self,
    Bool.false_eq_true, if_false, hdot, hspace, Bool.not_false,
    Bool.true_and, hlen, decide_eq_true_eq]
  by_cases hw : (pyStartsWith url "www." && V ("https://" ++ url)) = true
  · rw [if_pos hw]
    rw [Bool.and_eq_true] at hw
    unfold urlCandidates
    rw [List.find?_cons_of_pos _ hw.2]
  · rw [if_neg hw]
    simp [hlen]

/-- Witness for C7: `"acme.it"` satisfies the side conditions and
normalises to `"https://acme.it"` under a validator that accepts it. -/
theorem C7_normalizer_spec_witness :
    pyStrip "acme.it" = "acme.it" ∧
    normalizeUrl V0 "acme.it" = some "https://acme.it" ∧
    normalizeUrl V0 "not a url" = none :=
  ⟨by decide,
   ((C7_normalizer_spec.1 V0 "acme.it" (by decide) (by decide) (by decide)
     (by decide) (by decide)).trans (by decide)),
   C7_normalizer_spec.2.1 V0⟩

/-- C8 counterexample: for base `https://acme.it`, anchors to
`https://sub.acme.it/team` (a subdomain) and `https://notacme.it/x` (a
different registrable domain containing the base host as a substring) are
both collected as internal links although their network locations differ
from the page's own — membership does not require an exact match. -/
theorem C8_counterexample_not_exact_netloc :
    getAllInternalLinks V0 docD "https://acme.it" =
      ["https://sub.acme.it/team", "https://notacme.it/x",
       "https://acme.it/about"] ∧
    ((urlparse "https://sub.acme.it/team").netloc ==
      (urlparse "https://acme.it").netloc) = false ∧
    ((urlparse "https://notacme.it/x").netloc ==
      (urlparse "https://acme.it").netloc) = false :=
  ⟨by decide, by decide, by decide⟩

/-- C8 amended: every collected link arises from an anchor href that
passed the keyword and static-extension exclusions, whose joined absolute
URL contains the page's network location as a substring of its own network
location (not necessarily equal to it) and passed the URL validator; the
collected link is that URL with its fragment stripped. -/
theorem C8_amended_netloc_substring (V : String → Bool) (doc : Html)
    (base : String) :
    ∀ l ∈ getAllInternalLinks V doc base,
      ∃ href ∈ aHrefs doc,
        (href = "" || ignoreKeywords.any
          (fun k => pyIn k (pyToLower href))) = false ∧
        (ignoreExt.any (fun e => pyEndsWith (pyToLower href) e)) = false ∧
        pyIn (urlparse base).netloc
          (urlparse (urljoin base href)).netloc = true ∧
        V (urljoin base href) = true ∧
        l = stripFragment (urljoin base href) := by
  intro l h
  rcases collectLinks_mem V base (urlparse base).netloc (aHrefs doc) [] l h
    with h0 | ⟨href, hm, hprops⟩
  · simp at h0
  · exact ⟨href, hm, hprops⟩

/-- Witness for the amended C8 at the subdomain link. -/
theorem C8_amended_netloc_substring_witness :
    ∃ href ∈ aHrefs docD,
      (href = "" || ignoreKeywords.any
        (fun k => pyIn k (pyToLower href))) = false ∧
      (ignoreExt.any (fun e => pyEndsWith (pyToLower href) e)) = false ∧
      pyIn (urlparse "https://acme.it").netloc
        (urlparse (urljoin "https://acme.it" href)).netloc = true ∧
      V0 (urljoin "https://acme.it" href) = true ∧
      "https://sub.acme.it/team" =
        stripFragment (urljoin "https://acme.it" href) :=
  C8_amended_netloc_substring V0 docD "https://acme.it"
    "https://sub.acme.it/team" (by decide)

/-- C9: whenever the Relevance Ranker succeeds, its output is the
pointwise-ranked input, permuted into an order that is descending in total
score and stable (for every score value, the candidates carrying it keep
their input order); each output candidate's total score is the sum of the
100-point domain-match bonus, its context score and its corporate-prefix
score. -/
theorem C9_ranker_scores_sorted_stable (l : List EmailData) (u : String)
    (out : List RankedEmail) (h : prioritizeEmails l u = .ok out) :
    (∃ ranked, rankAll (siteDomainOf u) l = .ok ranked ∧
      List.Forall₂ (fun d r => rankOne (siteDomainOf u) d = .ok r) l ranked ∧
      out.Perm ranked ∧
      (∀ k, out.filter (fun r => r.total_score == k) =
        ranked.filter (fun r => r.total_score == k))) ∧
    out.Pairwise (fun a b => b.total_score ≤ a.total_score) ∧
    ∀ r ∈ out, ∃ pre dom,
      splitEmail r.address = .ok (pre, dom) ∧
      r.is_domain_match = pyIn (siteDomainOf u) dom ∧
      r.total_score =
        (if r.is_domain_match then 100 else 0) + r.score +
          prefixScoreOf pre := by
  unfold prioritizeEmails at h
  split at h
  · rename_i hemp
    simp only [Except.ok.injEq] at h
    subst h
    rw [List.isEmpty_iff] at hemp
    subst hemp
    refine ⟨⟨[], rfl, List.Forall₂.nil, List.Perm.refl _, fun k => rfl⟩,
      List.Pairwise.nil, ?_⟩
    intro r hr
    simp at hr
  · cases hra : rankAll (siteDomainOf u) l with
    | error e => rw [hra] at h; exact absurd h (by simp)
    | ok ranked =>
      rw [hra] at h
      simp only [Except.ok.injEq] at h
      subst h
      refine ⟨⟨ranked, rfl, rankAll_forall₂ _ l ranked hra,
        sortByTotalDesc_perm ranked, fun k => sortByTotalDesc_stable k ranked⟩,
        sortByTotalDesc_sorted ranked, ?_⟩
      intro r hr
      obtain ⟨d, hd, hrk⟩ := rankAll_mem (siteDomainOf u) l ranked hra r
        ((sortByTotalDesc_perm ranked).mem_iff.mp hr)
      exact rankOne_spec (siteDomainOf u) d r hrk

/-- Witness for C9: a two-candidate run where the ranked output is
descending and retains all properties. -/
theorem C9_ranker_scores_sorted_stable_witness :
    ([{ address := "info@acme.it", score := 0, context := "",
        is_domain_match := true, total_score := 113 },
      { address := "sales@acme.it", score := 0, context := "",
        is_domain_match := true, total_score := 111 }] :
      List RankedEmail).Pairwise
        (fun a b => b.total_score ≤ a.total_score) :=
  (C9_ranker_scores_sorted_stable
    [{ address := "sales@acme.it", score := 0, context := "" },
     { address := "info@acme.it", score := 0, context := "" }]
    "https://acme.it" _ rfl).2.1

/-- C10: the rendered page fetch is total: an environment failure
(timeout, TLS error, any raised exception) yields no content paired with
the unchanged input URL, and a successful render yields the content paired
with the post-redirect URL; no exception propagates to the caller. -/
theorem C10_rendered_fetch_total (env : RenderEnv) (url : String) :
    (∀ e, env url = .error e →
      getPageContentWithJs env url = (none, url)) ∧
    (∀ doc fin, env url = .ok (doc, fin) →
      getPageContentWithJs env url = (some doc, fin)) := by
  constructor
  · intro e he
    simp [getPageContentWithJs, he]
  · intro doc fin hs
    simp [getPageContentWithJs, hs]

/-- Witness for C10 on both the failure and the success branch. -/
theorem C10_rendered_fetch_total_witness :
    getPageContentWithJs envA "ftp://nowhere" = (none, "ftp://nowhere") ∧
    getPageContentWithJs envA "https://acme.com" =
      (some homeDocA, "https://acme.com") :=
  ⟨(C10_rendered_fetch_total envA "ftp://nowhere").1
     "net::ERR_NAME_NOT_RESOLVED" rfl,
   (C10_rendered_fetch_total envA "https://acme.com").2 homeDocA
     "https://acme.com" rfl⟩

end EmailFinder
